import Mathlib

/-!
Verification of the attendance classification and sheet-merge logic of the
master-attendance repository.  Times of day are modelled as seconds since
midnight (`Int`) in the single configured timezone; Python's
`int((b - a).total_seconds() / 60)` is truncation toward zero, modelled by
`Int.tdiv`.  Raw WebWork time-entry strings are modelled as already parsed
(`Option Int`, `none` standing for a string `strptime` rejects), since the
claims under study do not concern the `HH:MM` text format itself.
-/

namespace Attendance

/-- Normalised email, mirroring Python's `email.lower().strip()` (ASCII
lowercasing and whitespace stripping), computed by structural recursion on
the character list. -/
def normEmail (s : String) : String :=
  String.mk ((((s.data.map Char.toLower).dropWhile Char.isWhitespace).reverse.dropWhile
    Char.isWhitespace).reverse)

/-- A `{name, email}` roster record as produced by
`get_department_employees_from_webwork`. -/
structure Emp where
  name : String
  email : String
deriving Repr, DecidableEq

/-- One project inside a WebWork `dateReport` entry: its (optional) name and
the begin times of the time entries of its tasks, `none` marking an
unparseable time string. -/
structure Proj where
  projectName : Option String
  tasks : List (List (Option Int))
deriving Repr, DecidableEq

/-- One per-employee entry of the WebWork daily report. -/
structure Report where
  email : Option String
  projects : List Proj
deriving Repr, DecidableEq

/-- The WebWork payload: the top-level `dateReport` list may be missing. -/
structure Payload where
  dateReport : Option (List Report)
deriving Repr, DecidableEq

/-- A status-bucket row; Python uses dicts with optional
`arrival_time`/`minutes_late` keys, modelled as `Option` fields
(`none` = key absent). -/
structure ARow where
  name : String
  email : String
  arrivalTime : Option Int
  minutesLate : Option Int
deriving Repr, DecidableEq

/-- The 17:00 end-of-day cutoff of `categorize_attendance`, in seconds. -/
def fivePM : Int := 17 * 3600

/-- `AttendanceTracker.categorize_attendance` (attendance_tracker.py
lines 208-277): per email, resolve the start time (`CUSTOM_START_TIMES`
override, else the default), then the ladder
`first_entry <= start_cutoff` / `< start + 60min` / `< 17:00` / else,
with `minutes_late = int((first_entry - start_dt).total_seconds()/60)`.
Returns `(on_time, late, very_late, absentees)` in input order. -/
def categorize (custom : String → Option Int) (startDefault : Int)
    (fe : String → Option Int) (gn : String → String) :
    List String → List ARow × List ARow × List ARow × List ARow
  | [] => ([], [], [], [])
  | email :: rest =>
      let prev := categorize custom startDefault fe gn rest
      let name := gn email
      let startDt := (custom email).getD startDefault
      let sixtyAfter := startDt + 3600
      match fe email with
      | none => (prev.1, prev.2.1, prev.2.2.1, ⟨name, email, none, none⟩ :: prev.2.2.2)
      | some t =>
          if t ≤ startDt then
            (⟨name, email, some t, none⟩ :: prev.1, prev.2.1, prev.2.2.1, prev.2.2.2)
          else if t < sixtyAfter then
            (prev.1, ⟨name, email, some t, some ((t - startDt).tdiv 60)⟩ :: prev.2.1,
              prev.2.2.1, prev.2.2.2)
          else if t < fivePM then
            (prev.1, prev.2.1, ⟨name, email, some t, some ((t - startDt).tdiv 60)⟩ :: prev.2.2.1,
              prev.2.2.2)
          else
            (prev.1, prev.2.1, prev.2.2.1, ⟨name, email, none, none⟩ :: prev.2.2.2)

/-- `AttendanceReportGenerator._calculate_statuses` (generate_report.py
lines 269-303): look up the normalised email in `first_entries`; with
`m = int((check_in - start_dt).total_seconds()/60)`, `m <= 5` is present,
`m <= 30` late, anything later goes straight to the absent bucket
(name/email only); no check-in is absent.  Returns
`(present, late, initially_absent_late, absent)`. -/
def calculateStatuses (emps : List Emp) (fe : String → Option Int) (startDt : Int) :
    List ARow × List ARow × List ARow × List ARow :=
  match emps with
  | [] => ([], [], [], [])
  | emp :: rest =>
      let prev := calculateStatuses rest fe startDt
      match fe (normEmail emp.email) with
      | some c =>
          let m := (c - startDt).tdiv 60
          if m ≤ 5 then
            (⟨emp.name, emp.email, some c, some m⟩ :: prev.1, prev.2.1, prev.2.2.1, prev.2.2.2)
          else if m ≤ 30 then
            (prev.1, ⟨emp.name, emp.email, some c, some m⟩ :: prev.2.1, prev.2.2.1, prev.2.2.2)
          else
            (prev.1, prev.2.1, prev.2.2.1, ⟨emp.name, emp.email, none, none⟩ :: prev.2.2.2)
      | none => (prev.1, prev.2.1, prev.2.2.1, ⟨emp.name, emp.email, none, none⟩ :: prev.2.2.2)

/-! ## Roster resolution and payload normalisation -/

/-- The project-derived email set of `get_hr_team_members`
(attendance_tracker.py lines 100-106): an email is collected when any of
that report's projects is named `hrProject` and the report carries a
truthy email. -/
def derivedFrom (reports : List Report) (hrProject : String) : Finset String :=
  reports.foldl (fun s r =>
    if r.projects.any (fun p => p.projectName == some hrProject) then
      match r.email with
      | some e => if e = "" then s else insert e s
      | none => s
    else s) ∅

/-- `AttendanceTracker.get_hr_team_members` (attendance_tracker.py
lines 92-128): on a missing payload or missing `dateReport` key the empty
set is returned at once; otherwise the project-derived set is unioned with
`ADDITIONAL_HR_EMAILS` and then `EXCLUDED_EMAILS` is subtracted. -/
def getHrTeamMembers (data : Option Payload) (hrProject : String)
    (additional excluded : List String) : Finset String :=
  match data with
  | none => ∅
  | some p =>
      match p.dateReport with
      | none => ∅
      | some reports => (derivedFrom reports hrProject ∪ additional.toFinset) \ excluded.toFinset

/-- Running minimum of parsed begin times, as in the nested
projects/tasks/timeEntries loop of `get_first_check_in_times`:
unparseable entries (`none`) are skipped. -/
def minOpt (acc t? : Option Int) : Option Int :=
  match t? with
  | none => acc
  | some t =>
      match acc with
      | none => some t
      | some a => if t < a then some t else some a

/-- First (earliest) check-in among all of one report's entries. -/
def firstEntryOf (projects : List Proj) : Option Int :=
  projects.foldl (fun acc p => p.tasks.foldl (fun acc2 ts => ts.foldl minOpt acc2) acc) none

/-- Python dict assignment on an association list: overwrite in place if the
key exists, else append. -/
def upsert (m : List (String × Int)) (k : String) (v : Int) : List (String × Int) :=
  if m.any (fun kv => kv.1 == k) then
    m.map (fun kv => if kv.1 == k then (k, v) else kv)
  else m ++ [(k, v)]

/-- `AttendanceReportGenerator.get_first_check_in_times` (generate_report.py
lines 240-267): empty/malformed payload yields the empty map; otherwise each
report with a truthy email contributes its earliest parsed begin time under
the normalised email. -/
def getFirstCheckInTimes (data : Option Payload) : List (String × Int) :=
  match data with
  | none => []
  | some p =>
      match p.dateReport with
      | none => []
      | some reports =>
          reports.foldl (fun m r =>
            match r.email with
            | none => m
            | some e =>
                if e = "" then m
                else
                  match firstEntryOf r.projects with
                  | none => m
                  | some t => upsert m (normEmail e) t) []

/-- One step of the department-roster build: add `{name, email}` to every
configured department whose project list contains `pn`, unless a record with
that exact email is already there. -/
def addEmpToMatching (pn name email : String)
    (acc : List ((String × List String) × List Emp)) :
    List ((String × List String) × List Emp) :=
  acc.map (fun entry =>
    if entry.1.2.contains pn then
      if entry.2.any (fun e => e.email == email) then entry
      else (entry.1, entry.2 ++ [⟨name, email⟩])
    else entry)

/-- Process one report of the department-roster build: skip falsy emails,
then scan its projects (a `None` project name matches no department). -/
def processReportDepts (gn : String → String)
    (acc : List ((String × List String) × List Emp)) (r : Report) :
    List ((String × List String) × List Emp) :=
  match r.email with
  | none => acc
  | some email =>
      if email = "" then acc
      else
        r.projects.foldl (fun a p =>
          match p.projectName with
          | some pn => addEmpToMatching pn (gn email) email a
          | none => a) acc

/-- `AttendanceReportGenerator.get_department_employees_from_webwork`
(generate_report.py lines 217-238): on a missing payload or missing
`dateReport` every configured department maps to an empty roster (and the
dict is returned unfiltered); otherwise rosters are built from project
membership and departments with empty rosters are filtered out. -/
def getDeptEmployees (data : Option Payload) (cfg : List (String × List String))
    (gn : String → String) : List (String × List Emp) :=
  match data with
  | none => cfg.map (fun c => (c.1, []))
  | some p =>
      match p.dateReport with
      | none => cfg.map (fun c => (c.1, []))
      | some reports =>
          let final := reports.foldl (processReportDepts gn) (cfg.map (fun c => (c, [])))
          (final.map (fun entry => (entry.1.1, entry.2))).filter (fun de => !de.2.isEmpty)

/-! ## Report renderers -/

/-- `str.ljust`: pad on the right with spaces up to width `n`. -/
def ljust (n : Nat) (s : String) : String :=
  s ++ String.mk (List.replicate (n - s.length) ' ')

/-- The per-row normalisation loop of `SlackNotifier._build_ascii_table`
(generate_report.py lines 72-83): for `i in range(len(headers))`, keep
`row[i]` when it exists, else an empty-string cell. -/
def normalizeRow (maxCols : Nat) (row : List String) : List String :=
  (List.range maxCols).map (fun i => (row.get? i).getD "")

/-- The guarded column-width update of `_build_ascii_table`
(generate_report.py lines 86-90): cell `i` bumps `col_widths[i]` when that
index exists; excess cells are ignored and leftover widths kept. -/
def bumpWidths : List Nat → List String → List Nat
  | ws, [] => ws
  | [], _ :: _ => []
  | w :: ws, c :: cs => max w c.length :: bumpWidths ws cs

/-- `SlackNotifier._build_ascii_table` (generate_report.py lines 40-102),
list-row path: empty input gives the literal `"None."`; otherwise rows are
normalised to the header width, column widths are maxima of header and cell
widths, and the fenced table text is assembled. -/
def buildAsciiTable (headers : List String) (rows : List (List String)) : String :=
  if rows.isEmpty then "None."
  else
    let normalized := rows.map (normalizeRow headers.length)
    let widths := normalized.foldl bumpWidths (headers.map String.length)
    let headerLine := String.intercalate " | " ((headers.zip widths).map (fun hw => ljust hw.2 hw.1))
    let sepLine := String.intercalate "-|-" (widths.map (fun w => String.mk (List.replicate w '-')))
    let bodyLines := normalized.map (fun row =>
      String.intercalate " | " ((row.zip widths).map (fun cw => ljust cw.2 cw.1)))
    "```\n" ++ String.intercalate "\n" (headerLine :: sepLine :: bodyLines) ++ "\n```"

/-- The column-width loop of the `build_table` helper inside
`send_slack_report` (attendance_tracker.py lines 283-298): cell `i` of a row
updates `col_widths[i]`; a row longer than the header indexes past the end,
which in Python raises `IndexError`, modelled by `none`. -/
def updWidths : List Nat → List String → Option (List Nat)
  | ws, [] => some ws
  | [], _ :: _ => none
  | w :: ws, c :: cs => (updWidths ws cs).map (fun tail => (max w c.length) :: tail)

/-- `build_table` of attendance_tracker.py (lines 283-298): compute column
widths (raising on over-long rows), then join header, separator and body
lines; body cells of a short row are emitted as-is, without padding cells. -/
def buildTable (headers : List String) (rows : List (List String)) : Option String :=
  match rows.foldlM (fun ws row => updWidths ws row) (headers.map String.length) with
  | none => none
  | some ws =>
      let headerLine := String.intercalate " | " ((headers.zip ws).map (fun hw => ljust hw.2 hw.1))
      let sepLine := String.intercalate "-|-" (ws.map (fun w => String.mk (List.replicate w '-')))
      let bodyLines := rows.map (fun row =>
        String.intercalate " | " ((row.zip ws).map (fun cw => ljust cw.2 cw.1)))
      some ("```\n" ++ String.intercalate "\n" (headerLine :: sepLine :: bodyLines) ++ "\n```")

/-! ## Sheet merge (`_update_department_sheet`, generate_report.py 394-556)

The pure table transformation: the worksheet contents (`List (List String)`,
row 0 the header), the department roster, the first-entries map and the
department start time go in; the reconciled table that is written back with
`clear()` + `update(existing_data)` comes out.  Formatting, dropdown
validation and the API calls around it are outside the data model. -/

/-- The 3-state status written to the sheet, duplicated verbatim at
generate_report.py lines 487-498 and 520-532: `minutes_late <= 5` Present,
`<= 30` Late, later or no check-in Absent. -/
def statusFor (fe : String → Option Int) (startDt : Int) (ne : String) : String :=
  match fe ne with
  | some c =>
      if (c - startDt).tdiv 60 ≤ 5 then "Present"
      else if (c - startDt).tdiv 60 ≤ 30 then "Late"
      else "Absent"
  | none => "Absent"

/-- `while len(row) < n: row.append("")`. -/
def padTo (n : Nat) (r : List String) : List String :=
  r ++ List.replicate (n - r.length) ""

/-- The row-email guard of the merge loops: `len(row) > 1` and a truthy
`row[1]`. -/
def rowEmail (r : List String) : Option String :=
  match r.get? 1 with
  | some e => if e = "" then none else some e
  | none => none

/-- Python's `{normEmail(e.email): e for e in emps}[ne]`: the last roster
record whose normalised email is `ne`, if any. -/
def rosterLookup (emps : List Emp) (ne : String) : Option Emp :=
  emps.foldl (fun acc emp => if normEmail emp.email = ne then some emp else acc) none

/-- The per-existing-row body of the merge loop (generate_report.py
lines 471-509): rows failing the email guard are untouched; otherwise the
row is padded to the header width and either updated from the roster record
(name overwritten, date cell set to the computed status) or, for an email
with no roster record this run, its date cell is set to `"Absent"`. -/
def processRow (emps : List Emp) (fe : String → Option Int) (startDt : Int)
    (hlen dateCol : Nat) (r : List String) : List String :=
  match rowEmail r with
  | none => r
  | some e =>
      let ne := normEmail e
      let r' := padTo hlen r
      match rosterLookup emps ne with
      | some emp => (r'.set 0 emp.name).set dateCol (statusFor fe startDt ne)
      | none => r'.set dateCol "Absent"

/-- The `email_to_row` key set (generate_report.py lines 451-456): normalised
emails of rows passing the email guard. -/
def existingEmails (rows : List (List String)) : List String :=
  rows.filterMap (fun r => (rowEmail r).map normEmail)

/-- A row appended for a roster member absent from the sheet
(generate_report.py lines 511-537): name, email, then one cell per existing
date column — the computed status at the current date's column, empty
placeholders elsewhere. -/
def newRow (fe : String → Option Int) (startDt : Int) (hlen dateCol : Nat)
    (emp : Emp) : List String :=
  emp.name :: emp.email :: (List.range (hlen - 2)).map
    (fun j => if j + 2 = dateCol then statusFor fe startDt (normEmail emp.email) else "")

/-- The date-column scan (generate_report.py lines 431-435): index of the
first header cell equal to the date string. -/
def findDateCol : List String → String → Option Nat
  | [], _ => none
  | c :: rest, d => if c = d then some 0 else (findDateCol rest d).map (· + 1)

/-- The date column the merge writes to: the found index, else the position
of the freshly appended column (= the old header length). -/
def dateColOf (header : List String) (dateStr : String) : Nat :=
  (findDateCol header dateStr).getD header.length

/-- `AttendanceReportGenerator._update_department_sheet` as a table
transformation (generate_report.py lines 406-542).  An empty sheet gets the
`[Name, Email]` skeleton plus one name/email row per roster member and
nothing else (early return).  Otherwise: locate or append the date column
(padding every row when appending), update or preserve every existing row,
and append rows for roster members whose normalised email is not among the
sheet's. -/
def mergeSheet (existing : List (List String)) (emps : List Emp)
    (fe : String → Option Int) (startDt : Int) (dateStr : String) :
    List (List String) :=
  match existing with
  | [] => ["Name", "Email"] :: emps.map (fun empRec => [empRec.name, empRec.email])
  | header :: rows =>
      let dc := findDateCol header dateStr
      let dateCol := dc.getD header.length
      let header' := if dc.isSome then header else header ++ [dateStr]
      let rows₁ := if dc.isSome then rows else rows.map (padTo header'.length)
      let known := existingEmails rows₁
      let rows₂ := rows₁.map (processRow emps fe startDt header'.length dateCol)
      let appended := (emps.filter
          (fun empRec => !(known.contains (normEmail empRec.email)))).map
        (newRow fe startDt header'.length dateCol)
      header' :: (rows₂ ++ appended)

/-- Rectangularity of a sheet: every body row exactly as long as the header. -/
def rectangular : List (List String) → Prop
  | [] => True
  | header :: rows => ∀ r ∈ rows, r.length = header.length

/-! ## Classifier lemmas -/

/-- The condition under which `categorize_attendance` files an email under
absent: no first entry, or every ladder comparison fails. -/
def absentCond (custom : String → Option Int) (sd : Int) (fe : String → Option Int)
    (e : String) : Bool :=
  match fe e with
  | none => true
  | some t =>
      if t ≤ (custom e).getD sd then false
      else if t < (custom e).getD sd + 3600 then false
      else if t < fivePM then false
      else true

lemma absentCond_iff (custom : String → Option Int) (sd : Int) (fe : String → Option Int)
    (e : String) :
    absentCond custom sd fe e = true ↔
      (fe e = none ∨ ∃ t, fe e = some t ∧
        ¬ t ≤ (custom e).getD sd ∧ ¬ t < (custom e).getD sd + 3600 ∧ ¬ t < fivePM) := by
  unfold absentCond
  cases hfe : fe e with
  | none => simp
  | some t =>
      dsimp only
      split_ifs with h1 h2 h3 <;> simp_all

/-- The absent bucket grows by the head's row exactly when `absentCond`
holds for the head. -/
lemma categorize_absent_cons (custom : String → Option Int) (sd : Int)
    (fe : String → Option Int) (gn : String → String) (e0 : String) (rest : List String) :
    (categorize custom sd fe gn (e0 :: rest)).2.2.2 =
      (if absentCond custom sd fe e0 then
        ({ name := gn e0, email := e0, arrivalTime := none, minutesLate := none } : ARow) ::
          (categorize custom sd fe gn rest).2.2.2
       else (categorize custom sd fe gn rest).2.2.2) := by
  cases hfe : fe e0 with
  | none => simp [categorize, absentCond, hfe]
  | some t =>
      simp only [categorize, absentCond, hfe]
      split_ifs <;> first | rfl | simp_all

/-- Exact membership condition for the absent bucket of
`categorize_attendance`: the email was processed and either has no first
entry or fell through all three ladder comparisons. -/
lemma categorize_absent_any (custom : String → Option Int) (sd : Int)
    (fe : String → Option Int) (gn : String → String) (emails : List String) (e : String) :
    ((categorize custom sd fe gn emails).2.2.2.any (fun r => r.email == e) = true) ↔
      (e ∈ emails ∧ (fe e = none ∨ ∃ t, fe e = some t ∧
        ¬ t ≤ (custom e).getD sd ∧ ¬ t < (custom e).getD sd + 3600 ∧ ¬ t < fivePM)) := by
  induction emails with
  | nil => simp [categorize]
  | cons e0 rest ih =>
      rw [categorize_absent_cons]
      by_cases hc : absentCond custom sd fe e0 = true
      · simp only [if_pos hc, List.any_cons, Bool.or_eq_true, beq_iff_eq, ih, List.mem_cons]
        by_cases he : e0 = e
        · subst he
          have hx := (absentCond_iff custom sd fe e0).mp hc
          constructor
          · intro _; exact ⟨Or.inl rfl, hx⟩
          · intro _; exact Or.inl rfl
        · constructor
          · rintro (h | ⟨hm, hx⟩)
            · exact absurd h he
            · exact ⟨Or.inr hm, hx⟩
          · rintro ⟨h | hm, hx⟩
            · exact absurd h.symm he
            · exact Or.inr ⟨hm, hx⟩
      · simp only [if_neg hc, ih, List.mem_cons]
        by_cases he : e0 = e
        · subst he
          have hx : ¬ (fe e0 = none ∨ ∃ t, fe e0 = some t ∧
              ¬ t ≤ (custom e0).getD sd ∧ ¬ t < (custom e0).getD sd + 3600 ∧ ¬ t < fivePM) :=
            fun h => hc ((absentCond_iff custom sd fe e0).mpr h)
          constructor
          · rintro ⟨hm, h⟩; exact ⟨Or.inr hm, h⟩
          · rintro ⟨_, h⟩; exact absurd h hx
        · constructor
          · rintro ⟨hm, h⟩; exact ⟨Or.inr hm, h⟩
          · rintro ⟨hm | hm, h⟩
            · exact absurd hm.symm he
            · exact ⟨hm, h⟩

/-- Every row of the absent bucket of `categorize_attendance` carries neither
an arrival time nor a minutes-late value. -/
lemma categorize_absent_fields (custom : String → Option Int) (sd : Int)
    (fe : String → Option Int) (gn : String → String) (emails : List String) :
    ∀ r ∈ (categorize custom sd fe gn emails).2.2.2,
      r.minutesLate = none ∧ r.arrivalTime = none := by
  induction emails with
  | nil => simp [categorize]
  | cons e0 rest ih =>
      rw [categorize_absent_cons]
      by_cases hc : absentCond custom sd fe e0 = true
      · simp only [if_pos hc]
        intro r hr
        rcases List.mem_cons.mp hr with rfl | hr
        · exact ⟨rfl, rfl⟩
        · exact ih r hr
      · simp only [if_neg hc]
        exact ih

/-! ## List helpers for the merge proofs -/

lemma set_same {α : Type} (l : List α) (i : Nat) (a : α) (h : l.get? i = some a) :
    l.set i a = l := by
  induction l generalizing i with
  | nil => simp at h
  | cons x xs ih =>
      cases i with
      | zero =>
          injection h with h
          rw [List.set]
          rw [h]
      | succ n =>
          rw [List.set]
          rw [ih n h]

lemma map_fix {α : Type} (f : α → α) (l : List α) (h : ∀ x ∈ l, f x = x) : l.map f = l := by
  induction l with
  | nil => rfl
  | cons x xs ih =>
      rw [List.map_cons, h x (by simp), ih (fun y hy => h y (by simp [hy]))]

lemma padTo_length (n : Nat) (r : List String) : (padTo n r).length = max n r.length := by
  simp [padTo]
  omega

lemma padTo_of_le {n : Nat} {r : List String} (h : n ≤ r.length) : padTo n r = r := by
  simp [padTo, Nat.sub_eq_zero_of_le h]

lemma padTo_get?_lt {n i : Nat} {r : List String} (h : i < r.length) :
    (padTo n r).get? i = r.get? i :=
  List.get?_append h

lemma rowEmail_eq_some {r : List String} {e : String} :
    rowEmail r = some e ↔ (r.get? 1 = some e ∧ e ≠ "") := by
  unfold rowEmail
  cases h : r.get? 1 with
  | none => simp
  | some x =>
      by_cases hx : x = ""
      · subst hx
        simp only [if_pos rfl]
        constructor
        · intro h'; simp at h'
        · rintro ⟨he, hne⟩
          injection he with he
          exact absurd he.symm hne
      · simp only [if_neg hx]
        constructor
        · intro h'
          injection h' with h'
          subst h'
          exact ⟨rfl, hx⟩
        · rintro ⟨he, _⟩
          injection he with he
          rw [he]

lemma rowEmail_padTo (n : Nat) (r : List String) : rowEmail (padTo n r) = rowEmail r := by
  by_cases h : 1 < r.length
  · unfold rowEmail
    rw [padTo_get?_lt h]
  · have h1 : r.get? 1 = none := by
      rw [List.get?_eq_none]
      omega
    unfold rowEmail
    rw [h1]
    cases h2 : (padTo n r).get? 1 with
    | none => rfl
    | some x =>
        have hx : x = "" := by
          unfold padTo at h2
          rw [List.get?_append_right (by omega)] at h2
          have := List.get?_mem h2
          exact (List.eq_of_mem_replicate this)
        rw [hx]
        simp

lemma findDateCol_some_lt {h : List String} {d : String} {i : Nat}
    (hf : findDateCol h d = some i) : i < h.length := by
  induction h generalizing i with
  | nil => simp [findDateCol] at hf
  | cons c rest ih =>
      unfold findDateCol at hf
      by_cases hc : c = d
      · rw [if_pos hc] at hf
        injection hf with hf
        simp [← hf]
      · rw [if_neg hc] at hf
        cases hfr : findDateCol rest d with
        | none => rw [hfr] at hf; simp at hf
        | some j =>
            rw [hfr] at hf
            injection hf with hf
            have := ih hfr
            simp [← hf]
            omega

lemma findDateCol_append_self {h : List String} {d : String} (hf : findDateCol h d = none) :
    findDateCol (h ++ [d]) d = some h.length := by
  induction h with
  | nil => simp [findDateCol]
  | cons c rest ih =>
      by_cases hc : c = d
      · exfalso
        unfold findDateCol at hf
        rw [if_pos hc] at hf
        simp at hf
      · have hrest : findDateCol rest d = none := by
          unfold findDateCol at hf
          rw [if_neg hc] at hf
          cases hfr : findDateCol rest d
          · rfl
          · rw [hfr] at hf; simp at hf
        rw [List.cons_append]
        show findDateCol (c :: (rest ++ [d])) d = some (c :: rest).length
        unfold findDateCol
        rw [if_neg hc, ih hrest]
        simp

lemma foldl_lookup_skip (ne : String) (emps : List Emp) (acc : Option Emp)
    (h : ∀ x ∈ emps, normEmail x.email ≠ ne) :
    emps.foldl (fun a emp => if normEmail emp.email = ne then some emp else a) acc = acc := by
  induction emps generalizing acc with
  | nil => rfl
  | cons x xs ih =>
      rw [List.foldl_cons, if_neg (h x (by simp))]
      exact ih acc (fun y hy => h y (by simp [hy]))

lemma rosterLookup_aux : ∀ (emps : List Emp) (emp : Emp) (acc : Option Emp),
    emp ∈ emps → ((emps.map (fun x => normEmail x.email)).Nodup) →
    emps.foldl (fun a x => if normEmail x.email = normEmail emp.email then some x else a) acc
      = some emp := by
  intro emps
  induction emps with
  | nil => intro emp acc h _; cases h
  | cons x xs ih =>
      intro emp acc hmem hnd
      have hnd' : (normEmail x.email ∉ xs.map (fun z => normEmail z.email)) ∧
          (xs.map (fun z => normEmail z.email)).Nodup := by
        rw [List.map_cons, List.nodup_cons] at hnd
        exact hnd
      rcases List.mem_cons.mp hmem with rfl | hmem'
      · rw [List.foldl_cons, if_pos rfl]
        apply foldl_lookup_skip
        intro y hy hEq
        exact hnd'.1 (by rw [← hEq]; exact List.mem_map_of_mem _ hy)
      · have hx : normEmail x.email ≠ normEmail emp.email := by
          intro hEq
          exact hnd'.1 (hEq ▸ List.mem_map_of_mem _ hmem')
        rw [List.foldl_cons, if_neg hx]
        exact ih emp acc hmem' hnd'.2

lemma rosterLookup_self (emps : List Emp) (emp : Emp) (hmem : emp ∈ emps)
    (hnd : (emps.map (fun x => normEmail x.email)).Nodup) :
    rosterLookup emps (normEmail emp.email) = some emp :=
  rosterLookup_aux emps emp none hmem hnd

/-! ## processRow / newRow / mergeSheet lemmas -/

lemma processRow_of_none {r : List String} (emps : List Emp) (fe : String → Option Int)
    (s : Int) (hlen dc : Nat) (h : rowEmail r = none) :
    processRow emps fe s hlen dc r = r := by
  unfold processRow
  rw [h]

lemma processRow_of_match {r : List String} {e : String} {emp : Emp} (emps : List Emp)
    (fe : String → Option Int) (s : Int) (hlen dc : Nat)
    (hre : rowEmail r = some e) (hlk : rosterLookup emps (normEmail e) = some emp) :
    processRow emps fe s hlen dc r =
      ((padTo hlen r).set 0 emp.name).set dc (statusFor fe s (normEmail e)) := by
  unfold processRow
  rw [hre]
  dsimp only
  rw [hlk]

lemma processRow_of_nomatch {r : List String} {e : String} (emps : List Emp)
    (fe : String → Option Int) (s : Int) (hlen dc : Nat)
    (hre : rowEmail r = some e) (hlk : rosterLookup emps (normEmail e) = none) :
    processRow emps fe s hlen dc r = (padTo hlen r).set dc "Absent" := by
  unfold processRow
  rw [hre]
  dsimp only
  rw [hlk]

lemma processRow_length {r : List String} (emps : List Emp) (fe : String → Option Int)
    (s : Int) (hlen dc : Nat) (h : r.length = hlen) :
    (processRow emps fe s hlen dc r).length = hlen := by
  cases hre : rowEmail r with
  | none => rw [processRow_of_none emps fe s hlen dc hre]; exact h
  | some e =>
      cases hlk : rosterLookup emps (normEmail e) with
      | some emp =>
          rw [processRow_of_match emps fe s hlen dc hre hlk]
          simp [List.length_set, padTo_length, h]
      | none =>
          rw [processRow_of_nomatch emps fe s hlen dc hre hlk]
          simp [List.length_set, padTo_length, h]

lemma processRow_rowEmail {r : List String} (emps : List Emp) (fe : String → Option Int)
    (s : Int) (hlen dc : Nat) (hdc2 : 2 ≤ dc) :
    rowEmail (processRow emps fe s hlen dc r) = rowEmail r := by
  cases hre : rowEmail r with
  | none => rw [processRow_of_none emps fe s hlen dc hre, hre]
  | some e =>
      obtain ⟨h1, hne⟩ := rowEmail_eq_some.mp hre
      obtain ⟨hlt, -⟩ := List.get?_eq_some.mp h1
      have hpe : (padTo hlen r).get? 1 = some e := by rw [padTo_get?_lt hlt]; exact h1
      cases hlk : rosterLookup emps (normEmail e) with
      | some emp =>
          rw [processRow_of_match emps fe s hlen dc hre hlk, rowEmail_eq_some]
          exact ⟨by rw [List.get?_set_ne _ _ (by omega), List.get?_set_ne _ _ (by decide), hpe],
            hne⟩
      | none =>
          rw [processRow_of_nomatch emps fe s hlen dc hre hlk, rowEmail_eq_some]
          exact ⟨by rw [List.get?_set_ne _ _ (by omega), hpe], hne⟩

lemma processRow_fix {r : List String} (emps : List Emp) (fe : String → Option Int)
    (s : Int) (hlen dc : Nat) (hdc2 : 2 ≤ dc) (hdclt : dc < hlen) :
    processRow emps fe s hlen dc (processRow emps fe s hlen dc r)
      = processRow emps fe s hlen dc r := by
  cases hre : rowEmail r with
  | none => rw [processRow_of_none emps fe s hlen dc hre, processRow_of_none emps fe s hlen dc hre]
  | some e =>
      obtain ⟨h1, hne⟩ := rowEmail_eq_some.mp hre
      obtain ⟨hlt, -⟩ := List.get?_eq_some.mp h1
      have hpl : hlen ≤ (padTo hlen r).length := by rw [padTo_length]; omega
      have hpe : (padTo hlen r).get? 1 = some e := by rw [padTo_get?_lt hlt]; exact h1
      cases hlk : rosterLookup emps (normEmail e) with
      | some emp =>
          rw [processRow_of_match emps fe s hlen dc hre hlk]
          set q := ((padTo hlen r).set 0 emp.name).set dc (statusFor fe s (normEmail e)) with hq
          have hqe : rowEmail q = some e := by
            rw [rowEmail_eq_some]
            refine ⟨?_, hne⟩
            rw [hq, List.get?_set_ne _ _ (by omega), List.get?_set_ne _ _ (by decide), hpe]
          rw [processRow_of_match emps fe s hlen dc hqe hlk]
          have hql : hlen ≤ q.length := by
            rw [hq]
            simpa [List.length_set] using hpl
          rw [padTo_of_le hql]
          have h0 : q.get? 0 = some emp.name := by
            rw [hq, List.get?_set_ne _ _ (by omega)]
            exact List.get?_set_eq_of_lt _ (by omega)
          rw [set_same _ _ _ h0]
          have hdcq : q.get? dc = some (statusFor fe s (normEmail e)) := by
            rw [hq]
            exact List.get?_set_eq_of_lt _ (by simp [List.length_set]; omega)
          rw [set_same _ _ _ hdcq]
      | none =>
          rw [processRow_of_nomatch emps fe s hlen dc hre hlk]
          set q := (padTo hlen r).set dc "Absent" with hq
          have hqe : rowEmail q = some e := by
            rw [rowEmail_eq_some]
            refine ⟨?_, hne⟩
            rw [hq, List.get?_set_ne _ _ (by omega), hpe]
          rw [processRow_of_nomatch emps fe s hlen dc hqe hlk]
          have hql : hlen ≤ q.length := by
            rw [hq]
            simpa [List.length_set] using hpl
          rw [padTo_of_le hql]
          have hdcq : q.get? dc = some "Absent" := by
            rw [hq]
            exact List.get?_set_eq_of_lt _ (by omega)
          rw [set_same _ _ _ hdcq]

lemma newRow_length (fe : String → Option Int) (s : Int) {hlen : Nat} (dc : Nat) (emp : Emp)
    (h2 : 2 ≤ hlen) : (newRow fe s hlen dc emp).length = hlen := by
  simp [newRow]
  omega

lemma newRow_get?_zero (fe : String → Option Int) (s : Int) (hlen dc : Nat) (emp : Emp) :
    (newRow fe s hlen dc emp).get? 0 = some emp.name := rfl

lemma newRow_get?_one (fe : String → Option Int) (s : Int) (hlen dc : Nat) (emp : Emp) :
    (newRow fe s hlen dc emp).get? 1 = some emp.email := rfl

lemma rowEmail_newRow (fe : String → Option Int) (s : Int) (hlen dc : Nat) (emp : Emp)
    (hne : emp.email ≠ "") :
    rowEmail (newRow fe s hlen dc emp) = some emp.email := by
  rw [rowEmail_eq_some]
  exact ⟨rfl, hne⟩

lemma newRow_get?_dc (fe : String → Option Int) (s : Int) {hlen dc : Nat} (emp : Emp)
    (hdc2 : 2 ≤ dc) (hdclt : dc < hlen) :
    (newRow fe s hlen dc emp).get? dc = some (statusFor fe s (normEmail emp.email)) := by
  obtain ⟨k, rfl⟩ : ∃ k, dc = k + 2 := ⟨dc - 2, by omega⟩
  have hk : k < hlen - 2 := by omega
  show ((List.range (hlen - 2)).map
      (fun j => if j + 2 = k + 2 then statusFor fe s (normEmail emp.email) else "")).get? k
    = some (statusFor fe s (normEmail emp.email))
  rw [List.get?_eq_getElem?, List.getElem?_map, List.getElem?_range hk]
  simp

lemma processRow_newRow (emps : List Emp) (fe : String → Option Int) (s : Int)
    {hlen dc : Nat} (emp : Emp) (hdc2 : 2 ≤ dc) (hdclt : dc < hlen)
    (hne : emp.email ≠ "") (hmem : emp ∈ emps)
    (hnd : (emps.map (fun x => normEmail x.email)).Nodup) :
    processRow emps fe s hlen dc (newRow fe s hlen dc emp) = newRow fe s hlen dc emp := by
  rw [processRow_of_match emps fe s hlen dc (rowEmail_newRow fe s hlen dc emp hne)
    (rosterLookup_self emps emp hmem hnd)]
  rw [padTo_of_le (le_of_eq (newRow_length fe s dc emp (by omega)).symm)]
  rw [set_same _ _ _ (newRow_get?_zero fe s hlen dc emp)]
  rw [set_same _ _ _ (newRow_get?_dc fe s emp hdc2 hdclt)]

lemma existingEmails_append (a b : List (List String)) :
    existingEmails (a ++ b) = existingEmails a ++ existingEmails b := by
  simp [existingEmails]

lemma existingEmails_map_processRow (emps : List Emp) (fe : String → Option Int) (s : Int)
    (hlen dc : Nat) (rows : List (List String)) (hdc2 : 2 ≤ dc) :
    existingEmails (rows.map (processRow emps fe s hlen dc)) = existingEmails rows := by
  induction rows with
  | nil => rfl
  | cons r rs ih =>
      simp only [existingEmails, List.map_cons, List.filterMap_cons] at ih ⊢
      rw [processRow_rowEmail emps fe s hlen dc hdc2]
      cases rowEmail r <;> simp_all

/-- Unfolding of `mergeSheet` when the date column already exists at index
`i` of the header. -/
lemma mergeSheet_found {header : List String} {dateStr : String} {i : Nat}
    (hf : findDateCol header dateStr = some i)
    (rows : List (List String)) (emps : List Emp) (fe : String → Option Int) (s : Int) :
    mergeSheet (header :: rows) emps fe s dateStr =
      header :: (rows.map (processRow emps fe s header.length i) ++
        (emps.filter (fun emp => !((existingEmails rows).contains (normEmail emp.email)))).map
          (newRow fe s header.length i)) := by
  simp [mergeSheet, hf]

/-- Unfolding of `mergeSheet` when the date column is appended: the header
grows by one, every row is padded to the new width, and the date column is
the old header length. -/
lemma mergeSheet_notfound {header : List String} {dateStr : String}
    (hf : findDateCol header dateStr = none)
    (rows : List (List String)) (emps : List Emp) (fe : String → Option Int) (s : Int) :
    mergeSheet (header :: rows) emps fe s dateStr =
      (header ++ [dateStr]) ::
        ((rows.map (padTo (header.length + 1))).map
            (processRow emps fe s (header.length + 1) header.length) ++
          (emps.filter (fun emp =>
            !((existingEmails (rows.map (padTo (header.length + 1)))).contains
              (normEmail emp.email)))).map
            (newRow fe s (header.length + 1) header.length)) := by
  simp [mergeSheet, hf]

/-! ## Claims C1, C2, C3, C10 -/

/-- C1 (counterexample): at exactly `startTime + 5m` (09:05:00 for a 09:00
start) `categorize_attendance` returns Late, not OnTime — its on-time rung is
`first_entry <= start_dt` with no grace — and at `startTime + 5m + 1s`
`_calculate_statuses` still returns Present (floored minutes = 5), not Late.
Both halves of the claim fail on the code. -/
theorem c1_counterexample :
    ((categorize (fun _ => none) 32400 (fun _ => some 32700) id ["a"]).1 = [] ∧
      (categorize (fun _ => none) 32400 (fun _ => some 32700) id ["a"]).2.1 ≠ []) ∧
    ((calculateStatuses [⟨"n", "b"⟩] (fun _ => some 32701) 32400).1 ≠ [] ∧
      (calculateStatuses [⟨"n", "b"⟩] (fun _ => some 32701) 32400).2.1 = []) := by
  decide

/-- C1 (amended): `categorize_attendance` classifies OnTime exactly when the
check-in is at or before the resolved start time (no grace period), while
`_calculate_statuses` classifies Present exactly when the floored minutes
past start are at most 5 — so there the `startTime + 5m` boundary is
inclusive and Late only begins at `startTime + 6m`. -/
theorem c1_claim (custom : String → Option Int) (sd : Int)
    (fe fe2 : String → Option Int) (gn : String → String) (e : String) (t : Int)
    (emp : Emp) (c : Int)
    (h1 : fe e = some t) (h2 : fe2 (normEmail emp.email) = some c) :
    (((categorize custom sd fe gn [e]).1 ≠ []) ↔ t ≤ (custom e).getD sd) ∧
    (((calculateStatuses [emp] fe2 sd).1 ≠ []) ↔ (c - sd).tdiv 60 ≤ 5) := by
  constructor
  · simp only [categorize, h1]
    split_ifs with hA hB hC <;> simp [hA]
  · simp only [calculateStatuses, h2]
    split_ifs with hA hB <;> simp [hA]

/-- C1 witness: concrete instance of `c1_claim` at a 09:00 start with
check-ins 09:05:00 and 09:05:01. -/
theorem c1_witness :
    (((categorize (fun _ => none) 32400 (fun _ => some 32700) id ["a"]).1 ≠ []) ↔
        (32700 : Int) ≤ 32400) ∧
    (((calculateStatuses [⟨"n", "b"⟩] (fun _ => some 32701) 32400).1 ≠ []) ↔
        ((32701 : Int) - 32400).tdiv 60 ≤ 5) :=
  c1_claim (fun _ => none) 32400 (fun _ => some 32700) (fun _ => some 32701) id "a" 32700
    ⟨"n", "b"⟩ 32701 rfl rfl

/-- C2 (counterexample): for a check-in 31 minutes after a 09:00 start,
`categorize_attendance` returns Late (its escalation point is 60 minutes,
not 30) and `_calculate_statuses` returns Absent — neither returns VeryLate,
whose bucket stays empty in both. -/
theorem c2_counterexample :
    (categorize (fun _ => none) 32400 (fun _ => some 34260) id ["a"]).2.2.1 = [] ∧
    (categorize (fun _ => none) 32400 (fun _ => some 34260) id ["a"]).2.1
        = [⟨"a", "a", some 34260, some 31⟩] ∧
    (calculateStatuses [⟨"n", "b"⟩] (fun _ => some 34260) 32400).2.2.1 = [] ∧
    (calculateStatuses [⟨"n", "b"⟩] (fun _ => some 34260) 32400).2.2.2
        = [⟨"n", "b", none, none⟩] := by
  decide

/-- C2 (amended): a first check-in 31 minutes after the resolved start time
is classified Late (not VeryLate) by `categorize_attendance`, with
`minutesLate = 31` measured from the start time; `_calculate_statuses`
instead files the employee directly under Absent with no minutes at all,
leaving its very-late bucket untouched. -/
theorem c2_claim (custom : String → Option Int) (sd : Int) (fe fe2 : String → Option Int)
    (gn : String → String) (e : String) (emp : Emp)
    (h1 : fe e = some ((custom e).getD sd + 31 * 60))
    (h2 : fe2 (normEmail emp.email) = some (sd + 31 * 60)) :
    (categorize custom sd fe gn [e]).2.1
        = [⟨gn e, e, some ((custom e).getD sd + 31 * 60), some 31⟩] ∧
    (categorize custom sd fe gn [e]).2.2.1 = [] ∧
    (calculateStatuses [emp] fe2 sd).2.1 = [] ∧
    (calculateStatuses [emp] fe2 sd).2.2.2 = [⟨emp.name, emp.email, none, none⟩] := by
  have hA : ¬ ((custom e).getD sd + 31 * 60 ≤ (custom e).getD sd) := by omega
  have hB : (custom e).getD sd + 31 * 60 < (custom e).getD sd + 3600 := by omega
  have hm : ((custom e).getD sd + 31 * 60 - (custom e).getD sd).tdiv 60 = 31 := by
    have h : (custom e).getD sd + 31 * 60 - (custom e).getD sd = 1860 := by ring
    rw [h]; decide
  have hm2 : ((sd + 31 * 60 : Int) - sd).tdiv 60 = 31 := by
    have h : (sd + 31 * 60 : Int) - sd = 1860 := by ring
    rw [h]; decide
  refine ⟨?_, ?_, ?_, ?_⟩
  · simp only [categorize, h1, if_neg hA, if_pos hB, hm]
  · simp only [categorize, h1, if_neg hA, if_pos hB]
  · simp only [calculateStatuses, h2, hm2]
    norm_num
  · simp only [calculateStatuses, h2, hm2]
    norm_num

/-- C2 witness: concrete instance of `c2_claim` at a 09:00 start with a
09:31 check-in. -/
theorem c2_witness :
    (categorize (fun _ => none) 32400 (fun _ => some (32400 + 31 * 60)) id ["a"]).2.1
        = [⟨"a", "a", some (32400 + 31 * 60), some 31⟩] ∧
    (categorize (fun _ => none) 32400 (fun _ => some (32400 + 31 * 60)) id ["a"]).2.2.1 = [] ∧
    (calculateStatuses [⟨"n", "b"⟩] (fun _ => some ((32400 : Int) + 31 * 60)) 32400).2.1 = [] ∧
    (calculateStatuses [⟨"n", "b"⟩] (fun _ => some ((32400 : Int) + 31 * 60)) 32400).2.2.2
        = [⟨"n", "b", none, none⟩] :=
  c2_claim (fun _ => none) 32400 (fun _ => some (32400 + 31 * 60))
    (fun _ => some (32400 + 31 * 60)) id "a" ⟨"n", "b"⟩ rfl rfl

/-- C3 (counterexample): with a `CUSTOM_START_TIMES` override of 17:00, a
check-in exactly at the 17:00 cutoff is classified OnTime by
`categorize_attendance`, not Absent — the cutoff rung is only reached after
the earlier ladder comparisons fail. -/
theorem c3_counterexample :
    (categorize (fun _ => some (17 * 3600)) 32400 (fun _ => some (17 * 3600)) id ["x"]).2.2.2
        = [] ∧
    (categorize (fun _ => some (17 * 3600)) 32400 (fun _ => some (17 * 3600)) id ["x"]).1
        = [⟨"x", "x", some 61200, none⟩] := by
  decide

/-- C3 (amended): absent-bucket rows of `categorize_attendance` never carry a
minutes-late (or arrival) value, and — provided the employee's resolved start
time is at least 60 minutes before the 17:00 cutoff — an employee lands in
the absent bucket exactly when they have no recorded check-in or their first
check-in is at or after 17:00. -/
theorem c3_claim (custom : String → Option Int) (sd : Int) (fe : String → Option Int)
    (gn : String → String) (emails : List String) :
    (∀ r ∈ (categorize custom sd fe gn emails).2.2.2,
        r.minutesLate = none ∧ r.arrivalTime = none) ∧
    (∀ e ∈ emails, (custom e).getD sd + 3600 ≤ fivePM →
      (((categorize custom sd fe gn emails).2.2.2.any (fun r => r.email == e)) = true ↔
        (fe e = none ∨ ∃ t, fe e = some t ∧ fivePM ≤ t))) := by
  refine ⟨categorize_absent_fields custom sd fe gn emails, ?_⟩
  intro e he hcut
  rw [categorize_absent_any]
  constructor
  · rintro ⟨_, h | ⟨t, ht, h1, h2, h3⟩⟩
    · exact Or.inl h
    · exact Or.inr ⟨t, ht, by omega⟩
  · rintro (h | ⟨t, ht, h5⟩)
    · exact ⟨he, Or.inl h⟩
    · exact ⟨he, Or.inr ⟨t, ht, by omega, by omega, by omega⟩⟩

/-- C3 witness: concrete instance of `c3_claim` — with a 09:00 start and no
recorded check-in, the absent bucket contains the employee. -/
theorem c3_witness :
    ((categorize (fun _ => none) 32400 (fun _ => none) id ["a"]).2.2.2.any
        (fun r => r.email == "a")) = true :=
  ((c3_claim (fun _ => none) 32400 (fun _ => none) id ["a"]).2 "a" (by simp)
    (by decide)).mpr (Or.inl rfl)

/-- C10: the third bucket (`initially_absent_late`) returned by
`_calculate_statuses` is the empty list for every input — nothing is ever
appended to it, every check-in more than 30 floored minutes late going
directly to the absent bucket. -/
theorem c10_claim (emps : List Emp) (fe : String → Option Int) (s : Int) :
    (calculateStatuses emps fe s).2.2.1 = [] := by
  induction emps with
  | nil => rfl
  | cons emp rest ih =>
      cases hfe : fe (normEmail emp.email) with
      | none => simpa [calculateStatuses, hfe] using ih
      | some c =>
          simp only [calculateStatuses, hfe]
          split_ifs <;> simpa using ih

/-! ## Claims C4, C5, C6 -/

/-- A merge on a sheet whose date column sits at index `i ≥ 2` and whose body
is already fixed by `processRow`, with every roster email already present,
returns the sheet unchanged. -/
lemma mergeSheet_idem_core (header' : List String) (body : List (List String))
    (emps : List Emp) (fe : String → Option Int) (s : Int) (dateStr : String) (i : Nat)
    (hf : findDateCol header' dateStr = some i)
    (hfix : ∀ r ∈ body, processRow emps fe s header'.length i r = r)
    (hknown : ∀ emp ∈ emps,
      (existingEmails body).contains (normEmail emp.email) = true) :
    mergeSheet (header' :: body) emps fe s dateStr = header' :: body := by
  rw [mergeSheet_found hf body emps fe s]
  congr 1
  rw [map_fix _ _ hfix]
  have hemptyfilter : emps.filter (fun emp =>
      !((existingEmails body).contains (normEmail emp.email))) = [] := by
    rw [List.filter_eq_nil_iff]
    intro a ha
    simp only [Bool.not_eq_true', Bool.not_eq_false]
    simpa using hknown a ha
  rw [hemptyfilter]
  simp

/-- The body produced by one merge is pointwise fixed by `processRow`. -/
lemma body_fix (rows₁ : List (List String)) (emps : List Emp) (fe : String → Option Int)
    (s : Int) (hlen i : Nat) (hdc2 : 2 ≤ i) (hdclt : i < hlen)
    (hne : ∀ emp ∈ emps, emp.email ≠ "")
    (hnd : (emps.map (fun emp => normEmail emp.email)).Nodup) :
    ∀ r ∈ rows₁.map (processRow emps fe s hlen i) ++
        (emps.filter (fun emp => !((existingEmails rows₁).contains (normEmail emp.email)))).map
          (newRow fe s hlen i),
      processRow emps fe s hlen i r = r := by
  intro r hr
  rcases List.mem_append.mp hr with h2 | h2
  · obtain ⟨r₀, -, rfl⟩ := List.mem_map.mp h2
    exact processRow_fix emps fe s hlen i hdc2 hdclt
  · obtain ⟨emp, hemp, rfl⟩ := List.mem_map.mp h2
    have hm := (List.mem_filter.mp hemp).1
    exact processRow_newRow emps fe s emp hdc2 hdclt (hne emp hm) hm hnd

/-- After one merge every roster email occurs in the body's email set. -/
lemma body_known (rows₁ : List (List String)) (emps : List Emp) (fe : String → Option Int)
    (s : Int) (hlen i : Nat) (hdc2 : 2 ≤ i)
    (hne : ∀ emp ∈ emps, emp.email ≠ "") :
    ∀ emp ∈ emps,
      (existingEmails (rows₁.map (processRow emps fe s hlen i) ++
        (emps.filter (fun emp2 => !((existingEmails rows₁).contains (normEmail emp2.email)))).map
          (newRow fe s hlen i))).contains (normEmail emp.email) = true := by
  intro emp hemp
  rw [existingEmails_append]
  have hmem : normEmail emp.email ∈
      existingEmails (rows₁.map (processRow emps fe s hlen i)) ++
      existingEmails ((emps.filter
        (fun emp2 => !((existingEmails rows₁).contains (normEmail emp2.email)))).map
          (newRow fe s hlen i)) := by
    by_cases hk : (existingEmails rows₁).contains (normEmail emp.email) = true
    · apply List.mem_append_left
      rw [existingEmails_map_processRow emps fe s hlen i rows₁ hdc2]
      simpa using hk
    · apply List.mem_append_right
      have hfilter : emp ∈ emps.filter
          (fun x => !((existingEmails rows₁).contains (normEmail x.email))) := by
        rw [List.mem_filter]
        refine ⟨hemp, ?_⟩
        simpa using hk
      refine List.mem_filterMap.mpr
        ⟨newRow fe s hlen i emp, List.mem_map_of_mem _ hfilter, ?_⟩
      rw [rowEmail_newRow fe s hlen i emp (hne emp hemp)]
      rfl
  simpa using hmem

/-- C4 (counterexample): from an empty sheet the first merge only writes the
`[Name, Email]` skeleton (early return, no date column); merging the same
inputs a second time then appends the date column and statuses, so the two
results differ — the merge is not idempotent on every sheet state. -/
theorem c4_counterexample :
    mergeSheet (mergeSheet [] [⟨"A", "a@x"⟩] (fun _ => none) 0 "2024-02-02")
        [⟨"A", "a@x"⟩] (fun _ => none) 0 "2024-02-02"
      ≠ mergeSheet [] [⟨"A", "a@x"⟩] (fun _ => none) 0 "2024-02-02" := by
  decide

/-- C4 (amended): on any sheet that already has a header row, the merge is
idempotent — merging the same classification twice equals merging once, with
no duplicate date column and no duplicate appended rows — provided the date
string does not occupy the first two (Name/Email) header columns, every
roster email is nonempty, and roster members have pairwise distinct
normalised emails.  Starting from the empty sheet it is not idempotent. -/
theorem c4_claim (header : List String) (rows : List (List String)) (emps : List Emp)
    (fe : String → Option Int) (s : Int) (dateStr : String)
    (hdc : 2 ≤ dateColOf header dateStr)
    (hne : ∀ emp ∈ emps, emp.email ≠ "")
    (hnd : (emps.map (fun emp => normEmail emp.email)).Nodup) :
    mergeSheet (mergeSheet (header :: rows) emps fe s dateStr) emps fe s dateStr
      = mergeSheet (header :: rows) emps fe s dateStr := by
  cases hf : findDateCol header dateStr with
  | some i =>
      have hdclt : i < header.length := findDateCol_some_lt hf
      have hdc2 : 2 ≤ i := by
        unfold dateColOf at hdc
        rw [hf] at hdc
        simpa using hdc
      rw [mergeSheet_found hf rows emps fe s]
      exact mergeSheet_idem_core header _ emps fe s dateStr i hf
        (body_fix rows emps fe s header.length i hdc2 hdclt hne hnd)
        (body_known rows emps fe s header.length i hdc2 hne)
  | none =>
      have hlen2 : 2 ≤ header.length := by
        unfold dateColOf at hdc
        rw [hf] at hdc
        simpa using hdc
      have hf' : findDateCol (header ++ [dateStr]) dateStr = some header.length :=
        findDateCol_append_self hf
      have hlen_eq : (header ++ [dateStr]).length = header.length + 1 := by simp
      rw [mergeSheet_notfound hf rows emps fe s, ← hlen_eq]
      exact mergeSheet_idem_core (header ++ [dateStr]) _ emps fe s dateStr header.length hf'
        (body_fix (rows.map (padTo (header ++ [dateStr]).length)) emps fe s
          (header ++ [dateStr]).length header.length hlen2 (by omega) hne hnd)
        (body_known (rows.map (padTo (header ++ [dateStr]).length)) emps fe s
          (header ++ [dateStr]).length header.length hlen2 hne)

/-- C4 witness: concrete instance of `c4_claim` — re-merging a one-row
classification into a sheet with only the header row changes nothing. -/
theorem c4_witness :
    mergeSheet (mergeSheet [["Name", "Email"]] [⟨"A", "a@x"⟩] (fun _ => none) 0 "2024-02-02")
        [⟨"A", "a@x"⟩] (fun _ => none) 0 "2024-02-02"
      = mergeSheet [["Name", "Email"]] [⟨"A", "a@x"⟩] (fun _ => none) 0 "2024-02-02" :=
  c4_claim ["Name", "Email"] [] [⟨"A", "a@x"⟩] (fun _ => none) 0 "2024-02-02"
    (by decide) (by decide) (by decide)

/-- C5 (counterexample): a pre-existing row longer than the header is never
trimmed or renormalised, so the merged table is not rectangular — the claim
fails on ragged input sheets. -/
theorem c5_counterexample :
    ¬ rectangular (mergeSheet [["Name", "Email"], ["Bob", "b@x", "X", "Y"]] []
      (fun _ => none) 0 "2024-01-02") := by
  intro h
  have hres : mergeSheet [["Name", "Email"], ["Bob", "b@x", "X", "Y"]] [] (fun _ => none) 0
      "2024-01-02" = [["Name", "Email", "2024-01-02"], ["Bob", "b@x", "Absent", "Y"]] := by
    decide
  rw [hres] at h
  have h4 := h ["Bob", "b@x", "Absent", "Y"] (by simp)
  simp at h4

/-- C5 (amended): merging preserves rectangularity — for an input sheet that
is empty, or whose header has at least the Name and Email columns and whose
rows all have exactly as many cells as the header, every row of the merged
table (updated rows, rows padded for a newly appended date column, and newly
appended employee rows) has exactly as many cells as the possibly extended
header.  Ragged input rows are not renormalised. -/
theorem c5_claim (existing : List (List String)) (emps : List Emp)
    (fe : String → Option Int) (s : Int) (dateStr : String)
    (hrect : rectangular existing)
    (hwide : ∀ header rows, existing = header :: rows → 2 ≤ header.length) :
    rectangular (mergeSheet existing emps fe s dateStr) := by
  cases existing with
  | nil =>
      show rectangular (["Name", "Email"] :: emps.map fun empRec => [empRec.name, empRec.email])
      intro r hr
      obtain ⟨emp, -, rfl⟩ := List.mem_map.mp hr
      rfl
  | cons header rows =>
      have hw : 2 ≤ header.length := hwide header rows rfl
      have hrows : ∀ r ∈ rows, r.length = header.length := hrect
      cases hf : findDateCol header dateStr with
      | some i =>
          rw [mergeSheet_found hf rows emps fe s]
          intro r hr
          rcases List.mem_append.mp hr with h2 | h2
          · obtain ⟨r₀, h0, rfl⟩ := List.mem_map.mp h2
            exact processRow_length emps fe s header.length i (hrows r₀ h0)
          · obtain ⟨emp, -, rfl⟩ := List.mem_map.mp h2
            exact newRow_length fe s i emp hw
      | none =>
          rw [mergeSheet_notfound hf rows emps fe s]
          intro r hr
          have hlen_eq : (header ++ [dateStr]).length = header.length + 1 := by simp
          rw [hlen_eq]
          rcases List.mem_append.mp hr with h2 | h2
          · obtain ⟨r₀, h0, rfl⟩ := List.mem_map.mp h2
            obtain ⟨r₁, h1, rfl⟩ := List.mem_map.mp h0
            apply processRow_length
            rw [padTo_length]
            have := hrows r₁ h1
            omega
          · obtain ⟨emp, -, rfl⟩ := List.mem_map.mp h2
            exact newRow_length fe s header.length emp (by omega)

/-- C5 witness: concrete instance of `c5_claim` on a header-only sheet. -/
theorem c5_witness :
    rectangular (mergeSheet [["Name", "Email"]] [⟨"A", "a@x"⟩] (fun _ => none) 0 "2024-02-02") :=
  c5_claim [["Name", "Email"]] [⟨"A", "a@x"⟩] (fun _ => none) 0 "2024-02-02"
    (by intro r hr; cases hr)
    (by intro header rows h; injection h with h1 h2; subst h1; decide)

/-- C6: a merge never removes an existing row — the output has at least as
many rows, every input row position is still populated, and an input row
whose (nonempty) email has no roster record this run keeps its cells except
that this date's column is set to `"Absent"`. -/
theorem c6_claim (header : List String) (rows : List (List String)) (emps : List Emp)
    (fe : String → Option Int) (s : Int) (dateStr : String) :
    ((header :: rows).length ≤ (mergeSheet (header :: rows) emps fe s dateStr).length) ∧
    (∀ i, i < rows.length →
      ((mergeSheet (header :: rows) emps fe s dateStr).get? (i + 1)).isSome = true) ∧
    (∀ i r e, rows.get? i = some r → rowEmail r = some e →
      rosterLookup emps (normEmail e) = none →
      ∃ r', (mergeSheet (header :: rows) emps fe s dateStr).get? (i + 1) = some r' ∧
        r'.get? (dateColOf header dateStr) = some "Absent" ∧
        ∀ j, j ≠ dateColOf header dateStr → j < r.length → r'.get? j = r.get? j) := by
  cases hf : findDateCol header dateStr with
  | some i0 =>
      have hdcol : dateColOf header dateStr = i0 := by
        unfold dateColOf
        rw [hf]
        rfl
      have hdclt : i0 < header.length := findDateCol_some_lt hf
      rw [mergeSheet_found hf rows emps fe s]
      refine ⟨?_, ?_, ?_⟩
      · simp
      · intro i hi
        show (((rows.map (processRow emps fe s header.length i0) ++
          (emps.filter (fun emp =>
            !((existingEmails rows).contains (normEmail emp.email)))).map
              (newRow fe s header.length i0)).get? i)).isSome = true
        rw [List.get?_append (by simpa using hi), List.get?_map, List.get?_eq_get hi]
        rfl
      · intro i r e hri hre hlk
        rw [hdcol]
        obtain ⟨hi, -⟩ := List.get?_eq_some.mp hri
        refine ⟨processRow emps fe s header.length i0 r, ?_, ?_, ?_⟩
        · show ((rows.map (processRow emps fe s header.length i0) ++
            (emps.filter (fun emp =>
              !((existingEmails rows).contains (normEmail emp.email)))).map
                (newRow fe s header.length i0)).get? i) = _
          rw [List.get?_append (by simpa using hi), List.get?_map, hri]
          rfl
        · rw [processRow_of_nomatch emps fe s header.length i0 hre hlk]
          exact List.get?_set_eq_of_lt _ (by rw [padTo_length]; omega)
        · intro j hj hjr
          rw [processRow_of_nomatch emps fe s header.length i0 hre hlk,
            List.get?_set_ne _ _ (Ne.symm hj)]
          exact padTo_get?_lt hjr
  | none =>
      have hdcol : dateColOf header dateStr = header.length := by
        unfold dateColOf
        rw [hf]
        rfl
      rw [mergeSheet_notfound hf rows emps fe s]
      refine ⟨?_, ?_, ?_⟩
      · simp
      · intro i hi
        show (((rows.map (padTo (header.length + 1))).map
            (processRow emps fe s (header.length + 1) header.length) ++
          (emps.filter (fun emp =>
            !((existingEmails (rows.map (padTo (header.length + 1)))).contains
              (normEmail emp.email)))).map
              (newRow fe s (header.length + 1) header.length)).get? i).isSome = true
        rw [List.get?_append (by simpa using hi), List.get?_map, List.get?_map,
          List.get?_eq_get hi]
        rfl
      · intro i r e hri hre hlk
        rw [hdcol]
        obtain ⟨hi, -⟩ := List.get?_eq_some.mp hri
        have hre' : rowEmail (padTo (header.length + 1) r) = some e := by
          rw [rowEmail_padTo]
          exact hre
        have hpp : padTo (header.length + 1) (padTo (header.length + 1) r)
            = padTo (header.length + 1) r := by
          apply padTo_of_le
          rw [padTo_length]
          omega
        refine ⟨(padTo (header.length + 1) r).set header.length "Absent", ?_, ?_, ?_⟩
        · show (((rows.map (padTo (header.length + 1))).map
              (processRow emps fe s (header.length + 1) header.length) ++
            (emps.filter (fun emp =>
              !((existingEmails (rows.map (padTo (header.length + 1)))).contains
                (normEmail emp.email)))).map
                (newRow fe s (header.length + 1) header.length)).get? i) = _
          rw [List.get?_append (by simpa using hi), List.get?_map, List.get?_map, hri]
          show some (processRow emps fe s (header.length + 1) header.length
            (padTo (header.length + 1) r)) = _
          rw [processRow_of_nomatch emps fe s (header.length + 1) header.length hre' hlk, hpp]
        · exact List.get?_set_eq_of_lt _ (by rw [padTo_length]; omega)
        · intro j hj hjr
          rw [List.get?_set_ne _ _ (Ne.symm hj)]
          exact padTo_get?_lt hjr

/-- C6 witness: concrete instance of `c6_claim` — a sheet row whose email
is not in the (empty) roster survives the merge with its date cell set to
Absent. -/
theorem c6_witness :
    ∃ r', (mergeSheet [["Name", "Email"], ["Bob", "b@x"]] [] (fun _ => none) 0
        "2024-01-02").get? 1 = some r' ∧
      r'.get? (dateColOf ["Name", "Email"] "2024-01-02") = some "Absent" ∧
      ∀ j, j ≠ dateColOf ["Name", "Email"] "2024-01-02" →
        j < (["Bob", "b@x"] : List String).length →
        r'.get? j = (["Bob", "b@x"] : List String).get? j :=
  (c6_claim ["Name", "Email"] [["Bob", "b@x"]] [] (fun _ => none) 0 "2024-01-02").2.2 0
    ["Bob", "b@x"] "b@x" rfl (by decide) rfl

/-! ## Claims C7, C8, C9 -/

/-- C7: roster resolution applies exclusion strictly after inclusion — for a
well-formed payload, membership in `get_hr_team_members`' result is exactly
(project-derived or manually included) and not excluded, so an email on both
manual lists is never in the result. -/
theorem c7_claim (reports : List Report) (hrP : String) (add exc : List String) :
    (∀ e, e ∈ getHrTeamMembers (some ⟨some reports⟩) hrP add exc ↔
      ((e ∈ derivedFrom reports hrP ∨ e ∈ add) ∧ e ∉ exc)) ∧
    (∀ e, e ∈ add → e ∈ exc → e ∉ getHrTeamMembers (some ⟨some reports⟩) hrP add exc) := by
  have key : ∀ e, e ∈ getHrTeamMembers (some ⟨some reports⟩) hrP add exc ↔
      ((e ∈ derivedFrom reports hrP ∨ e ∈ add) ∧ e ∉ exc) := by
    intro e
    simp [getHrTeamMembers, Finset.mem_sdiff, Finset.mem_union, List.mem_toFinset]
  exact ⟨key, fun e _ hexc hmem => ((key e).mp hmem).2 hexc⟩

/-- C7 witness: an email on both the include and the exclude list is not a
member of the resolved roster. -/
theorem c7_witness : "x" ∉ getHrTeamMembers (some ⟨some []⟩) "HR" ["x"] ["x"] :=
  (c7_claim [] "HR" ["x"] ["x"]).2 "x" (by simp) (by simp)

/-- C8: for an absent payload or one missing the `dateReport` list, the
check-in normaliser returns the empty map, HR roster extraction the empty
set, and the department-roster builder maps every configured department to an
empty roster — all total functions, no exception path. -/
theorem c8_claim (d : Option Payload) (hrP : String) (add exc : List String)
    (cfg : List (String × List String)) (gn : String → String)
    (h : d = none ∨ ∃ p, d = some p ∧ p.dateReport = none) :
    getFirstCheckInTimes d = [] ∧
    getHrTeamMembers d hrP add exc = ∅ ∧
    getDeptEmployees d cfg gn = cfg.map (fun c => (c.1, [])) := by
  rcases h with rfl | ⟨⟨dr⟩, rfl, hp⟩
  · exact ⟨rfl, rfl, rfl⟩
  · dsimp only at hp
    subst hp
    exact ⟨rfl, rfl, rfl⟩

/-- C8 witness: the three functions on the absent payload. -/
theorem c8_witness :
    getFirstCheckInTimes none = [] ∧
    getHrTeamMembers none "HR" ["a"] ["b"] = ∅ ∧
    getDeptEmployees none [("IT", ["P"])] id = [("IT", [])] :=
  c8_claim none "HR" ["a"] ["b"] [("IT", ["P"])] id (Or.inl rfl)

/-- C9 (counterexample): the `build_table` helper of attendance_tracker.py
indexes `col_widths[i]` without a bound check, so a row one cell longer than
the header raises `IndexError` (modelled as `none`) instead of returning. -/
theorem c9_counterexample : buildTable ["H"] [["a", "b"]] = none := by decide

/-- C9 (amended): the `_build_ascii_table` renderer of generate_report.py
normalises every body row to exactly the header's column count, keeping the
cells that exist and padding missing trailing cells with empty strings (and,
being total, never raises); the `build_table` helper of attendance_tracker.py
does not have this property. -/
theorem c9_claim (headers : List String) (rows : List (List String)) (i : Nat)
    (row : List String) (h : rows.get? i = some row) :
    ∃ nr, (rows.map (normalizeRow headers.length)).get? i = some nr ∧
      nr.length = headers.length ∧
      (∀ j, j < headers.length → nr.get? j = some ((row.get? j).getD "")) := by
  refine ⟨normalizeRow headers.length row, ?_, ?_, ?_⟩
  · rw [List.get?_map, h]; rfl
  · simp [normalizeRow]
  · intro j hj
    simp only [normalizeRow, List.get?_eq_getElem?, List.getElem?_map,
      List.getElem?_range hj]
    rfl

/-- C9 witness: a one-cell row under a two-column header normalises to two
cells, the second an empty string. -/
theorem c9_witness :
    ∃ nr, ([["a"]].map (normalizeRow (["H", "W"].length))).get? 0 = some nr ∧
      nr.length = ["H", "W"].length ∧
      (∀ j, j < ["H", "W"].length → nr.get? j = some ((["a"].get? j).getD "")) :=
  c9_claim ["H", "W"] [["a"]] 0 ["a"] rfl

end Attendance
